import Mathlib

/-!
Verification of the location extraction and resolution pipeline of the
Tourism-Chatbot repository (`backend/utils/location_extractor.py`).

The Python source is shallowly embedded below.  Conventions of the embedding:

* Python strings are Lean `String`s; most character-level work happens on
  `List Char` (`String.data`).
* The Unicode primitives used by the source (`str.lower`,
  `unicodedata.normalize("NFD", ·)` followed by removal of combining marks)
  are not re-implemented; each composite character-level map is taken as a
  parameter (`Char → List Char`), carried in the environment `GeoEnv`.
  Concrete instantiations used for evaluation fix an ASCII interpretation.
* Python floats are modelled as `ℚ`; `float(...)` parsing is implemented for
  the decimal/exponent grammar (the `inf`/`nan`/underscore forms never occur
  in the data handled by the source).
* Network I/O (`requests.get`) is modelled by oracles in `GeoEnv`: a function
  from the query text to the parsed provider results, plus an outcome type
  capturing the HTTP 403 trip signal.  The process-global `OSM_DISABLED`
  boolean is threaded explicitly through every function that reads or
  writes it, and each provider-chain function additionally returns the list
  of network requests it issued.
* `lru_cache` memoisation is semantically transparent for the pure functions
  it decorates and is dropped, except that `load_locations` raising
  `FileNotFoundError` is modelled by `Except Unit`.
-/

namespace TourismChatbot

/-- Whitespace as matched by Python's `\s` / `str.split()` / `str.strip()`
(the ASCII whitespace characters; further Unicode whitespace code points are
immaterial to the claims below). -/
def pyIsSpace (c : Char) : Bool :=
  c = ' ' || c = '\t' || c = '\n' || c = '\r' || c = '\x0b' || c = '\x0c'

/-- `l₁` is a prefix of `l₂` (Python `str.startswith`). -/
def listStartsWith : List Char → List Char → Bool
  | [], _ => true
  | _ :: _, [] => false
  | a :: p, b :: l => a = b && listStartsWith p l

/-- `sub` occurs contiguously inside `l` (Python `sub in l`). -/
def listContains (sub : List Char) : List Char → Bool
  | [] => listStartsWith sub []
  | c :: rest => listStartsWith sub (c :: rest) || listContains sub rest

/-- Drop the maximal whitespace run at the end of the list. -/
def dropTrailingWs : List Char → List Char
  | [] => []
  | c :: rest =>
    let r := dropTrailingWs rest
    if r.isEmpty && pyIsSpace c then [] else c :: r

/-- Python `str.strip()`: drop leading and trailing whitespace. -/
def pyStrip (l : List Char) : List Char :=
  dropTrailingWs (l.dropWhile pyIsSpace)

/-- Python `str.strip()` on `String`s. -/
def pyStripS (s : String) : String :=
  ⟨pyStrip s.data⟩

/-- Worker for `collapseWs`; the flag records whether the previously read
character was whitespace (so a whitespace run emits a single `' '`). -/
def collapseGo : Bool → List Char → List Char
  | _, [] => []
  | prevWs, c :: rest =>
    if pyIsSpace c then
      (if prevWs then [] else [' ']) ++ collapseGo true rest
    else
      c :: collapseGo false rest

/-- Python `re.sub(r"\s+", " ", s)`: every maximal whitespace run becomes a
single space. -/
def collapseWs (l : List Char) : List Char :=
  collapseGo false l

/-- Worker for `pySplit`; `acc` holds the current token reversed. -/
def pySplitGo (acc : List Char) : List Char → List (List Char)
  | [] => if acc.isEmpty then [] else [acc.reverse]
  | c :: rest =>
    if pyIsSpace c then
      if acc.isEmpty then pySplitGo [] rest
      else acc.reverse :: pySplitGo [] rest
    else
      pySplitGo (c :: acc) rest

/-- Python `str.split()` with no argument: split on whitespace runs,
dropping empty tokens. -/
def pySplit (l : List Char) : List (List Char) :=
  pySplitGo [] l

/-- Characters kept verbatim by the regex `[^a-z0-9\s]` of `normalize_text`. -/
def keepCh (c : Char) : Bool :=
  ('a' ≤ c && c ≤ 'z') || ('0' ≤ c && c ≤ '9') || pyIsSpace c

/-- The character-level part of `normalize_text` after the abstract
lower/NFD/strip-marks map has been applied: the regex pass replaces each
character outside `[a-z0-9\s]` by a space. -/
def regexPass (l : List Char) : List Char :=
  l.map fun c => if keepCh c then c else ' '

/-- `normalize_text` on character lists, parametrised by `fold`, the
composite map `remove-combining-marks ∘ NFD ∘ lower` applied to each
character of the lowercased, decomposed string. -/
def normList (fold : Char → List Char) (l : List Char) : List Char :=
  pyStrip (collapseWs (regexPass (l.flatMap fold)))

/-- `normalize_text(s)`: lowercase, decompose, strip combining marks,
replace non-alphanumerics with spaces, collapse whitespace, trim. -/
def normalize_text (fold : Char → List Char) (s : String) : String :=
  ⟨normList fold s.data⟩

/-- `tokenize(s) = normalize_text(s).split()`, on character lists. -/
def tokenizeL (fold : Char → List Char) (s : String) : List (List Char) :=
  pySplit (normList fold s.data)

/-- The Python `set(tokenize(s))` used by `find_best_match`. -/
def tokenSet (fold : Char → List Char) (s : String) : Finset (List Char) :=
  (tokenizeL fold s).toFinset

/-- `normalize_for_match(s)`: lowercase and strip accents only (no regex,
no trimming); with the composite character map this is just the fold. -/
def normalize_for_match (fold : Char → List Char) (s : String) : List Char :=
  s.data.flatMap fold

/-! ### difflib.SequenceMatcher (no junk, strings short of the autojunk
threshold): Ratcliff-Obershelp ratio. -/

/-- Length of the common run of `a` and `b` starting at their heads. -/
def runLen : List Char → List Char → Nat
  | x :: xs, y :: ys => if x = y then runLen xs ys + 1 else 0
  | _, _ => 0

/-- One candidate step of `find_longest_match`: the run starting at offsets
`i` into `a` and `j` into `b`. -/
def runAt (a b : List Char) (i j : Nat) : Nat :=
  runLen (a.drop i) (b.drop j)

/-- `SequenceMatcher.find_longest_match` over the whole strings: the longest
common block `(i, j, size)`, earliest in `a` then in `b` among maximal ones
(scan order with strict improvement reproduces difflib's tie-breaking). -/
def findLongestMatch (a b : List Char) : Nat × Nat × Nat :=
  (List.range a.length).foldl
    (fun best i =>
      (List.range b.length).foldl
        (fun best j =>
          let k := runAt a b i j
          if best.2.2 < k then (i, j, k) else best)
        best)
    (0, 0, 0)

/-- Total size of all matching blocks (`get_matching_blocks`), computed with
structural fuel; `fuel = a.length + b.length` always suffices. -/
def matchTotal : Nat → List Char → List Char → Nat
  | 0, _, _ => 0
  | fuel + 1, a, b =>
    let m := findLongestMatch a b
    if m.2.2 = 0 then 0
    else
      matchTotal fuel (a.take m.1) (b.take m.2.1) + m.2.2 +
        matchTotal fuel (a.drop (m.1 + m.2.2)) (b.drop (m.2.1 + m.2.2))

/-- `SequenceMatcher(None, a, b).ratio()` as a rational number. -/
def seqRatio (a b : List Char) : ℚ :=
  if a.length + b.length = 0 then 1
  else (2 * matchTotal (a.length + b.length) a b : ℚ) / (a.length + b.length)

/-! ### parse_float / get_lat_lng / row access -/

/-- Decimal digits of a numeral, most significant first, as a natural. -/
def digitsToNat (l : List Char) : Nat :=
  l.foldl (fun n c => 10 * n + (c.toNat - 48)) 0

/-- All characters are ASCII digits and the list is non-empty. -/
def allDigits (l : List Char) : Bool :=
  !l.isEmpty && l.all Char.isDigit

/-- Exponent part of a Python float literal: a non-empty digit string. -/
def expDigits (l : List Char) : Option Nat :=
  if allDigits l then some (digitsToNat l) else none

/-- Unsigned part of Python `float(...)`: `digits [. digits] [e[±]digits]`
with at least one mantissa digit (`1.`, `.5`, `1e3` are all accepted). -/
def pyFloatUnsigned (l : List Char) : Option ℚ :=
  let ip := l.takeWhile Char.isDigit
  let rest := l.dropWhile Char.isDigit
  let fp : Option (List Char) × List Char :=
    match rest with
    | '.' :: r => (some (r.takeWhile Char.isDigit), r.dropWhile Char.isDigit)
    | _ => (none, rest)
  if ip.isEmpty && (fp.1.getD []).isEmpty then none
  else
    let mant : ℚ := (digitsToNat ip : ℚ) +
      (match fp.1 with
       | some f => (digitsToNat f : ℚ) / ((10 : ℚ) ^ f.length)
       | none => 0)
    match fp.2 with
    | [] => some mant
    | 'e' :: r | 'E' :: r =>
      (match r with
       | '+' :: r2 => (expDigits r2).map fun e => mant * (10 : ℚ) ^ e
       | '-' :: r2 => (expDigits r2).map fun e => mant / (10 : ℚ) ^ e
       | _ => (expDigits r).map fun e => mant * (10 : ℚ) ^ e)
    | _ => none

/-- Python `float(s)` on an already-stripped string. -/
def pyFloat : List Char → Option ℚ
  | '+' :: rest => pyFloatUnsigned rest
  | '-' :: rest => (pyFloatUnsigned rest).map Neg.neg
  | l => pyFloatUnsigned l

/-- `parse_float(value)`: strip, turn comma into decimal point, parse. -/
def parse_float (s : String) : Option ℚ :=
  pyFloat ((pyStrip s.data).map fun c => if c = ',' then '.' else c)

/-- A CSV row / provider address dictionary: association list preserving
insertion order; a missing key models both an absent column and `None`. -/
abbrev Row : Type := List (String × String)

/-- Python `row.get(k)` returning `None` for a missing key. -/
def rowGet (r : Row) (k : String) : Option String :=
  (r.find? fun kv => kv.1 = k).map fun kv => kv.2

/-- `NAME_COLUMNS`: columns that may contain the landmark name. -/
def NAME_COLUMNS : List String :=
  ["TenDiaDanh", "enDiaDanh", "DiaDanh"]

/-- `get_row_name(row)`: first non-empty name column in priority order. -/
def get_row_name (r : Row) : String :=
  match NAME_COLUMNS.find? fun c => ((rowGet r c).getD "") ≠ "" with
  | some c => (rowGet r c).getD ""
  | none => ""

/-- Latitude column aliases probed by `get_lat_lng`. -/
def latKeys : List String :=
  ["lat", "Lat", "LAT", "latitude", "Latitude", "LATITUDE"]

/-- Longitude column aliases probed by `get_lat_lng`. -/
def lngKeys : List String :=
  ["lng", "Lng", "lon", "Lon", "LON", "long", "Long", "longitude", "Longitude"]

/-- First key of `keys` present in `row` with a parseable value. -/
def firstParsed (keys : List String) (r : Row) : Option ℚ :=
  match keys.find? fun k => ((rowGet r k).bind parse_float).isSome with
  | some k => (rowGet r k).bind parse_float
  | none => none

/-- `get_lat_lng(row)`. -/
def get_lat_lng (r : Row) : Option ℚ × Option ℚ :=
  (firstParsed latKeys r, firstParsed lngKeys r)

/-! ### find_best_match -/

/-- The generic prefix token set removed in the flexible pass (the Python
set literal lists `'khu'` twice; as a set it has these eight elements). -/
def genericPrefixTokens : Finset (List Char) :=
  (["khu".data, "di".data, "tich".data, "danh".data, "thang".data,
    "du".data, "lich".data, "vung".data] : List (List Char)).toFinset

/-- One iteration of the candidate-collection loop of `find_best_match`:
decides whether `row` joins `strict_candidates`, for query token set `q`.
The float test `overlap >= min_overlap * 0.8` is modelled by the exact
rational comparison `4 * min_overlap <= 5 * overlap` (the two agree for
every set size the double `0.8` can faithfully scale). -/
def acceptRow (fold : Char → List Char) (q : Finset (List Char)) (r : Row) :
    Bool :=
  let rn := get_row_name r
  if rn = "" then false
  else
    let rt := tokenSet fold rn
    if rt = ∅ then false
    else if q ≠ ∅ ∧ q ⊆ rt then true
    else
      let qc := q \ genericPrefixTokens
      let rc := rt \ genericPrefixTokens
      decide (qc ≠ ∅ ∧ rc ≠ ∅ ∧ 4 * min qc.card rc.card ≤ 5 * (qc ∩ rc).card)

/-- The `strict_candidates` list accumulated by `find_best_match`. -/
def acceptedCandidates (fold : Char → List Char) (name : String)
    (rows : List Row) : List Row :=
  rows.filter (acceptRow fold (tokenSet fold name))

/-- Fuzzy score of a candidate row against the normalized query name. -/
def rowScore (fold : Char → List Char) (normName : List Char) (r : Row) : ℚ :=
  seqRatio normName (normList fold (get_row_name r).data)

/-- The best-score scan of `find_best_match` (`score > best_score` keeps the
first row attaining the maximum; `best_row` stays `none` while scores are 0). -/
def bestScan (init : ℚ × Option Row) (scored : List (Row × ℚ)) : ℚ × Option Row :=
  scored.foldl (fun best p => if best.1 < p.2 then (p.2, some p.1) else best) init

/-- `find_best_match(name, rows, min_score)`. -/
def find_best_match (fold : Char → List Char) (name : String)
    (rows : List Row) (minScore : ℚ) : Option Row :=
  if (acceptedCandidates fold name rows).isEmpty then none
  else
    match bestScan (0, none) ((acceptedCandidates fold name rows).map fun r =>
        (r, rowScore fold (normList fold name.data) r)) with
    | (_, none) => none
    | (bestScore, some br) =>
      if br = ([] : Row) then none
      else if (acceptedCandidates fold name rows).length = 1 then some br
      else if minScore ≤ bestScore then some br
      else none

/-! ### Providers, environment, circuit breaker -/

/-- One parsed provider result (both OpenMap.vn results, already normalised
to the Nominatim shape by `query_openmap_vn`, and Nominatim results):
`lat`/`lon` as strings, the display name, and the truthy string values of
the `address` dictionary in iteration order. -/
structure OsmItem where
  lat : String
  lon : String
  display : String
  addrVals : List String
deriving DecidableEq, Repr

/-- Outcome of one Nominatim HTTP request: a parsed body, the 403 trip
signal, or any other failure (network error, non-2xx status, bad JSON). -/
inductive NomResponse where
  | ok (items : List OsmItem)
  | forbidden
  | err
deriving DecidableEq, Repr

/-- A network request issued by the provider chain, with its query text. -/
inductive ProviderCall where
  | openmap (q : String)
  | nominatim (q : String)
deriving DecidableEq, Repr

/-- The resolved output unit built by the pipeline. -/
structure LocationRecord where
  name : String
  address : String
  lat : Option ℚ
  lng : Option ℚ
  description : Option String
  imageUrl : Option String
  source : String
deriving DecidableEq, Repr

/-- Ambient state of the module: the Unicode character maps, the
configuration, the two network oracles, the CSV file, and the regex-based
candidate extractor (`extract_candidate_names`), which is abstracted as an
opaque text-to-candidates function since its behaviour is irrelevant to the
claims about resolution and deduplication. -/
structure GeoEnv where
  /-- character map of `normalize_text`/`normalize_for_match`:
  strip-marks ∘ NFD ∘ lower, per character -/
  ntFold : Char → List Char
  /-- character map of the `_norm` helper in `search_osm_location`:
  lower ∘ strip-marks ∘ NFD, per character -/
  osmFold : Char → List Char
  /-- character map of `str.lower()` -/
  lowFold : Char → List Char
  /-- `OPENMAP_API_KEY` -/
  openmapKey : Option String
  /-- parsed results of an OpenMap.vn request for a given query text -/
  openmapResults : String → List OsmItem
  /-- outcome of a Nominatim request for a given query text -/
  nominatimNet : String → NomResponse
  /-- the CSV dataset; `none` models a missing file -/
  csvRows : Option (List Row)
  /-- `extract_candidate_names` -/
  extractCandidates : String → List String

/-- `DEFAULT_OSM_CONTEXT`. -/
def DEFAULT_OSM_CONTEXT : String := "Việt Nam"

/-- `query_openmap_vn(query)`: empty without an API key, otherwise the
parsed oracle results (HTTP errors already degrade to `[]` inside it). -/
def query_openmap_vn (env : GeoEnv) (query : String) : List OsmItem :=
  match env.openmapKey with
  | none => []
  | some _ => env.openmapResults query

/-- `query_nominatim(query)` acting on the explicit `OSM_DISABLED` flag.
Returns the result list, the new flag, and whether an HTTP request was
issued. -/
def query_nominatim (env : GeoEnv) (disabled : Bool) (query : String) :
    List OsmItem × Bool × Bool :=
  if disabled then ([], disabled, false)
  else
    match env.nominatimNet query with
    | NomResponse.ok items => (items, disabled, true)
    | NomResponse.forbidden => ([], true, true)
    | NomResponse.err => ([], disabled, true)

/-- A sequence of `query_nominatim` calls: the per-call results paired with
the issued-request flag, and the final `OSM_DISABLED` value. -/
def runNominatim (env : GeoEnv) :
    Bool → List String → List (List OsmItem × Bool) × Bool
  | d, [] => ([], d)
  | d, q :: qs =>
    let step := query_nominatim env d q
    let rest := runNominatim env step.2.1 qs
    ((step.1, step.2.2) :: rest.1, rest.2)

/-! ### search_osm_location -/

/-- The `_norm` helper of `search_osm_location` on character lists:
`NFD` + strip marks + `.lower()` + `.strip()`. -/
def osmNormL (env : GeoEnv) (l : List Char) : List Char :=
  pyStrip (l.flatMap env.osmFold)

/-- `re.split(r"[,/|-]", s)` worker, keeping empty parts. -/
def splitAnyGo (seps : List Char) (cur : List Char) :
    List Char → List (List Char)
  | [] => [cur.reverse]
  | c :: rest =>
    if seps.contains c then cur.reverse :: splitAnyGo seps [] rest
    else splitAnyGo seps (c :: cur) rest

/-- `region_parts_norm`: split the hint on `,/|-`, strip each part, drop
parts shorter than two characters, normalise, drop the bare country
token `viet nam`. -/
def regionPartsNorm (env : GeoEnv) (hint : String) : List (List Char) :=
  (splitAnyGo [',', '/', '|', '-'] [] hint.data).filterMap fun part =>
    let p := pyStrip part
    if p.length < 2 then none
    else
      let pn := osmNormL env p
      if pn = "viet nam".data then none else some pn

/-- The landmark-type prefixes stripped when generating query variants. -/
def osmQueryPrefixStrings : List String :=
  ["khu du lich", "quan the", "danh thang", "di tich", "vuon quoc gia",
   "khu bao ton", "trung tam", "quang truong", "pho co", "nha tho",
   "chua", "den", "lang", "ban", "dong", "hang", "vinh", "cong vien"]

/-- Python `name.split(sep)[0]`: everything before the first occurrence of
`sep` (the whole string if absent). -/
def beforeFirst (sep : List Char) : List Char → List Char
  | [] => []
  | c :: rest =>
    if listStartsWith sep (c :: rest) then []
    else c :: beforeFirst sep rest

/-- Order-preserving deduplication (`dict.fromkeys`), keeping first
occurrences; `seen` accumulates emitted strings. -/
def dedupFirstGo (seen : List String) : List String → List String
  | [] => []
  | x :: xs =>
    if seen.contains x then dedupFirstGo seen xs
    else x :: dedupFirstGo (x :: seen) xs

/-- The fallback query variants generated by `search_osm_location`:
raw name, prefix-stripped name, and the `" - "`, `"-"`, `","` splits,
deduplicated preserving order. -/
def buildQueries (env : GeoEnv) (name : String) : List String :=
  let nm := osmNormL env name.data
  let qs := [name]
  let qs :=
    match osmQueryPrefixStrings.find? fun p =>
        listStartsWith (p.data ++ [' ']) nm with
    | some p => qs ++ [pyStripS ⟨name.data.drop (p.length + 1)⟩]
    | none => qs
  let qs := if listContains " - ".data name.data then
      qs ++ [pyStripS ⟨beforeFirst " - ".data name.data⟩] else qs
  let qs := if listContains "-".data name.data then
      qs ++ [pyStripS ⟨beforeFirst "-".data name.data⟩] else qs
  let qs := if listContains ",".data name.data then
      qs ++ [pyStripS ⟨beforeFirst ",".data name.data⟩] else qs
  dedupFirstGo [] qs

/-- `" ".join([display] + [str(v) for v in addr.values() if v])`. -/
def joinSpaces : List (List Char) → List Char
  | [] => []
  | [x] => x
  | x :: xs => x ++ ' ' :: joinSpaces xs

/-- The combined address text blob of a provider result. -/
def itemAddrText (it : OsmItem) : List Char :=
  joinSpaces (it.display.data :: (it.addrVals.filter fun v => v ≠ "").map String.data)

/-- The region-aware selection loop over one result list: the first item
with parseable coordinates whose address blob contains every region part
(no filtering when the part list is empty). -/
def pickItem (env : GeoEnv) (parts : List (List Char)) :
    List OsmItem → Option OsmItem
  | [] => none
  | it :: rest =>
    if (parse_float it.lat).isSome ∧ (parse_float it.lon).isSome then
      if parts.isEmpty then some it
      else if parts.all fun rp => listContains rp (osmNormL env (itemAddrText it)) then
        some it
      else pickItem env parts rest
    else pickItem env parts rest

/-- The record built from a chosen provider item (`original_name or q` is
used as the display name). -/
def mkOsmRec (orig : Option String) (q : String) (it : OsmItem)
    (label : String) : LocationRecord :=
  { name := match orig with
      | some o => if o ≠ "" then o else q
      | none => q
    address := it.display
    lat := parse_float it.lat
    lng := parse_float it.lon
    description := none
    imageUrl := none
    source := label }

/-- The query context: the region hint (with the default country appended)
when present, otherwise the `context` argument or the default country. -/
def queryContextOf (hint : Option String) (ctx : String) : String :=
  match hint with
  | some h => h ++ ", " ++ DEFAULT_OSM_CONTEXT
  | none => if ctx ≠ "" then ctx else DEFAULT_OSM_CONTEXT

/-- The query text sent to the providers for one variant `q`. -/
def queryTextOf (hint : Option String) (ctx q : String) : String :=
  if queryContextOf hint ctx ≠ "" then q ++ ", " ++ queryContextOf hint ctx
  else q

/-- The provider-chain step for one query text: the result list and source
label (OpenMap with priority when a key is configured, Nominatim as the
fallback), together with the updated `OSM_DISABLED` flag and request log. -/
def providerData (env : GeoEnv) (d : Bool) (qt : String)
    (log : List ProviderCall) :
    List OsmItem × String × Bool × List ProviderCall :=
  let dataOm := if env.openmapKey.isSome then query_openmap_vn env qt else []
  let logOm :=
    if env.openmapKey.isSome then log ++ [ProviderCall.openmap qt] else log
  if dataOm.isEmpty then
    let step := query_nominatim env d qt
    (step.1, "osm_fallback", step.2.1,
      if step.2.2 then logOm ++ [ProviderCall.nominatim qt] else logOm)
  else (dataOm, "openmap_vn", d, logOm)

/-- One iteration of the variant loop of `search_osm_location`: fetch the
provider data for the query text, skip the variant when it is empty, and
otherwise run the region filter and build the record from the first
accepted item.  The first component is `some` exactly when this variant
produced a record. -/
def searchTry (env : GeoEnv) (orig : Option String) (parts : List (List Char))
    (d : Bool) (q qt : String) (log : List ProviderCall) :
    Option LocationRecord × Bool × List ProviderCall :=
  let pd := providerData env d qt log
  if pd.1.isEmpty then (none, pd.2.2)
  else
    match pickItem env parts pd.1 with
    | some it => (some (mkOsmRec orig q it pd.2.1), pd.2.2)
    | none => (none, pd.2.2)

/-- The variant loop of `search_osm_location`: skip variants shorter than
three characters, try the rest in order, and return the first accepted
record, threading the `OSM_DISABLED` flag and the request log. -/
def searchGo (env : GeoEnv) (hint : Option String) (ctx : String)
    (orig : Option String) (parts : List (List Char)) :
    Bool → List String → List ProviderCall →
    Option LocationRecord × Bool × List ProviderCall
  | d, [], log => (none, d, log)
  | d, q :: qs, log =>
    if q.length < 3 then searchGo env hint ctx orig parts d qs log
    else
      match searchTry env orig parts d q (queryTextOf hint ctx q) log with
      | (some rec, d2, log2) => (some rec, d2, log2)
      | (none, d2, log2) => searchGo env hint ctx orig parts d2 qs log2

/-- `search_osm_location(name, context, region_hint, original_name)`:
short-circuits to `none` while `OSM_DISABLED` is set, otherwise runs the
variant loop.  Returns the optional record, the updated flag, and the
issued network requests. -/
def search_osm_location (env : GeoEnv) (disabled : Bool) (name : String)
    (ctx : String) (hint : Option String) (orig : Option String) :
    Option LocationRecord × Bool × List ProviderCall :=
  if disabled then (none, disabled, [])
  else
    let parts := match hint with
      | some h => regionPartsNorm env h
      | none => []
    searchGo env hint ctx orig parts disabled (buildQueries env name) []

/-! ### Region hint extraction and the address classifier -/

/-- `VIETNAM_PROVINCES`: the 63 official province/city names. -/
def VIETNAM_PROVINCES : List String :=
  ["An Giang", "Bà Rịa - Vũng Tàu", "Bạc Liêu", "Bắc Giang", "Bắc Kạn",
   "Bắc Ninh", "Bến Tre", "Bình Dương", "Bình Định", "Bình Phước",
   "Bình Thuận", "Cà Mau", "Cao Bằng", "Cần Thơ", "Đà Nẵng", "Đắk Lắk",
   "Đắk Nông", "Điện Biên", "Đồng Nai", "Đồng Tháp", "Gia Lai", "Hà Giang",
   "Hà Nam", "Hà Nội", "Hà Tĩnh", "Hải Dương", "Hải Phòng", "Hậu Giang",
   "Hòa Bình", "Hưng Yên", "Khánh Hòa", "Kiên Giang", "Kon Tum", "Lai Châu",
   "Lạng Sơn", "Lào Cai", "Lâm Đồng", "Long An", "Nam Định", "Nghệ An",
   "Ninh Bình", "Ninh Thuận", "Phú Thọ", "Phú Yên", "Quảng Bình",
   "Quảng Nam", "Quảng Ngãi", "Quảng Ninh", "Quảng Trị", "Sóc Trăng",
   "Sơn La", "Tây Ninh", "Thái Bình", "Thái Nguyên", "Thanh Hóa",
   "Thừa Thiên Huế", "Tiền Giang", "Thành phố Hồ Chí Minh", "Trà Vinh",
   "Tuyên Quang", "Vĩnh Long", "Vĩnh Phúc", "Yên Bái"]

/-- `PROVINCE_SYNONYMS`: colloquial name to canonical province. -/
def PROVINCE_SYNONYMS : List (String × String) :=
  [("Sài Gòn", "Thành phố Hồ Chí Minh"),
   ("TP Hồ Chí Minh", "Thành phố Hồ Chí Minh"),
   ("TP. Hồ Chí Minh", "Thành phố Hồ Chí Minh"),
   ("TP HCM", "Thành phố Hồ Chí Minh"),
   ("HCM", "Thành phố Hồ Chí Minh"),
   ("Vũng Tàu", "Bà Rịa - Vũng Tàu"),
   ("BRVT", "Bà Rịa - Vũng Tàu")]

/-- `VIETNAM_TOURISM_CITIES`. -/
def VIETNAM_TOURISM_CITIES : List String :=
  ["Đà Lạt", "Nha Trang", "Hội An", "Huế", "Sa Pa", "Phan Thiết",
   "Phú Quốc", "Vũng Tàu", "Đà Nẵng", "Hạ Long"]

/-- One scan step of `extract_region_hint_province`: the normalized place
name is non-empty and occurs in the normalized answer text. -/
def regionHit (env : GeoEnv) (place : String) (textNorm : List Char) : Bool :=
  let pn := normalize_for_match env.ntFold place
  !pn.isEmpty && listContains pn textNorm

/-- `extract_region_hint_province(answer)`: scan provinces, then synonyms,
then tourism cities, returning the first canonical hit. -/
def extract_region_hint_province (env : GeoEnv) (answer : String) :
    Option String :=
  if answer = "" then none
  else
    let tn := normalize_for_match env.ntFold answer
    match VIETNAM_PROVINCES.find? fun p => regionHit env p tn with
    | some p => some p
    | none =>
      match PROVINCE_SYNONYMS.find? fun al => regionHit env al.1 tn with
      | some al => some al.2
      | none =>
        match VIETNAM_TOURISM_CITIES.find? fun c => regionHit env c tn with
        | some c => some c
        | none => none

/-- `str.lower()` on a whole string under the abstract character map. -/
def pyLowerL (env : GeoEnv) (s : String) : List Char :=
  s.data.flatMap env.lowFold

/-- The street/ward/city keywords of `looks_like_address`. -/
def streetKeywords : List String :=
  ["đường", "duong", "phố", "pho", "street", "st.", "phường", "phuong",
   "quận", "quan", "thành phố", "tp.", "tp ", "city", "ward", "district"]

/-- `looks_like_address(query)`: digits mean an address; the Old-Quarter
phrase is carved out; otherwise any street keyword decides. -/
def looks_like_address (env : GeoEnv) (query : String) : Bool :=
  if query = "" then false
  else
    let q := pyLowerL env query
    if q.any Char.isDigit then true
    else if listContains "phố cổ".data q || listContains "pho co".data q then
      false
    else streetKeywords.any fun kw => listContains kw.data q

/-! ### load_locations and resolve_location_by_name -/

/-- `load_locations()`: propagate a missing dataset as an error, otherwise
strip accidental whitespace from header keys. -/
def load_locations (env : GeoEnv) : Except Unit (List Row) :=
  match env.csvRows with
  | none => Except.error ()
  | some rows => Except.ok (rows.map fun r => r.map fun kv => (pyStripS kv.1, kv.2))

/-- The record built from a matched CSV row with parsed coordinates. -/
def mkCsvRec (r : Row) (la ln : ℚ) : LocationRecord :=
  { name := get_row_name r
    address := (rowGet r "DiaChi").getD ""
    lat := some la
    lng := some ln
    description := some ((rowGet r "NoiDung").getD "")
    imageUrl :=
      match rowGet r "ImageURL" with
      | some v => if v = "" ∨ v = "N/A" then none else some v
      | none => none
    source := "csv" }

/-- `resolve_location_by_name(name, context_answer)` with the explicit
`OSM_DISABLED` flag.  `Except.error` models the `FileNotFoundError`
propagating out of the lazy `load_locations()` call. -/
def resolve_location_by_name (env : GeoEnv) (disabled : Bool) (name : String)
    (contextAnswer : Option String) :
    Except Unit (Option LocationRecord × Bool × List ProviderCall) :=
  if name = "" then Except.ok (none, disabled, [])
  else if looks_like_address env name then
    let base :=
      match contextAnswer with
      | some c => if c ≠ "" then c else name
      | none => name
    let hint := extract_region_hint_province env base
    Except.ok (search_osm_location env disabled name DEFAULT_OSM_CONTEXT hint (some name))
  else
    match load_locations env with
    | Except.error e => Except.error e
    | Except.ok rows =>
      let csvRes : Option LocationRecord :=
        match find_best_match env.ntFold name rows (1 / 2 : ℚ) with
        | some row =>
          match get_lat_lng row with
          | (some la, some ln) => some (mkCsvRec row la ln)
          | _ => none
        | none => none
      match csvRes with
      | some rec => Except.ok (some rec, disabled, [])
      | none =>
        let hint :=
          match contextAnswer with
          | some c =>
            if c ≠ "" then extract_region_hint_province env c
            else extract_region_hint_province env name
          | none => extract_region_hint_province env name
        Except.ok (search_osm_location env disabled name DEFAULT_OSM_CONTEXT hint (some name))

/-! ### extract_locations_from_answer -/

/-- `generic_patterns`: city/province names filtered out when a landmark
keyword is present among the raw candidates. -/
def genericPatterns : List String :=
  ["Thành phố Hồ Chí Minh", "Hồ Chí Minh", "Sài Gòn", "Hà Nội", "Đà Nẵng",
   "Hải Phòng", "Cần Thơ", "Biên Hòa", "Nha Trang", "Huế", "Buôn Ma Thuột",
   "Quy Nhơn", "Vũng Tàu", "Đà Lạt", "Hội An"]

/-- `landmark_keywords` of the specificity post-filter. -/
def landmarkKeywords : List String :=
  ["Chùa", "Đền", "Bảo tàng", "Nhà thờ", "Dinh", "Lăng", "Tháp",
   "Cung điện", "Phố cổ", "Chợ", "Vịnh", "Hang", "Động"]

/-- A raw candidate contains a landmark keyword (case-sensitive). -/
def hasLandmarkKw (orig : String) : Bool :=
  landmarkKeywords.any fun kw => listContains kw.data orig.data

/-- A raw candidate substring-matches the generic city list in either
direction, case-insensitively. -/
def isGenericCand (env : GeoEnv) (orig : String) : Bool :=
  genericPatterns.any fun p =>
    listContains (pyLowerL env p) (pyLowerL env orig) ||
      listContains (pyLowerL env orig) (pyLowerL env p)

/-- The per-record keep decision of the specificity filter. -/
def keepLoc (env : GeoEnv) (p : LocationRecord × String) : Bool :=
  hasLandmarkKw p.2 || !isGenericCand env p.2

/-- The specificity post-filter over (record, raw candidate) pairs: only
active with more than one record and some landmark-keyword candidate, and
skipped entirely when it would drop every record. -/
def postFilter (env : GeoEnv) (matched : List (LocationRecord × String)) :
    List (LocationRecord × String) :=
  if 1 < matched.length then
    if matched.any fun p => hasLandmarkKw p.2 then
      let filtered := matched.filter (keepLoc env)
      if filtered.isEmpty then matched else filtered
    else matched
  else matched

/-- The candidate-resolution loop of `extract_locations_from_answer`:
resolve each candidate against the full answer, skip misses, and
deduplicate by the resolved name (falling back to the raw candidate when
the record name is empty), threading the `OSM_DISABLED` flag. -/
def resolveAll (env : GeoEnv) (answer : String) :
    Bool → List (LocationRecord × String) → List String → List String →
    Except Unit (List (LocationRecord × String) × Bool)
  | d, acc, _seen, [] => Except.ok (acc, d)
  | d, acc, seen, n :: ns =>
    match resolve_location_by_name env d n (some answer) with
    | Except.error e => Except.error e
    | Except.ok (none, d2, _) => resolveAll env answer d2 acc seen ns
    | Except.ok (some rec, d2, _) =>
      let key := if rec.name ≠ "" then rec.name else n
      if key ∈ seen then resolveAll env answer d2 acc seen ns
      else resolveAll env answer d2 (acc ++ [(rec, n)]) (key :: seen) ns

/-- `extract_locations_from_answer(answer)`: warm the CSV cache (its
`FileNotFoundError` propagates), resolve every candidate, run the
specificity post-filter, and drop the internal raw-candidate tag. -/
def extract_locations_from_answer (env : GeoEnv) (disabled : Bool)
    (answer : String) : Except Unit (List LocationRecord × Bool) :=
  match load_locations env with
  | Except.error e => Except.error e
  | Except.ok _ =>
    match resolveAll env answer disabled [] [] (env.extractCandidates answer) with
    | Except.error e => Except.error e
    | Except.ok (matched, d2) =>
      Except.ok ((postFilter env matched).map fun p => p.1, d2)

/-- The strict (superset) acceptance condition of `find_best_match`: the
query has tokens and every query token occurs among the row's tokens. -/
def supersetMatch (fold : Char → List Char) (name : String) (r : Row) : Prop :=
  tokenSet fold name ≠ ∅ ∧ tokenSet fold name ⊆ tokenSet fold (get_row_name r)

/-- The flexible acceptance condition of `find_best_match`: after removing
the generic prefix tokens both sides stay non-empty and the overlap covers
at least 80 percent of the smaller reduced set. -/
def flexMatch (fold : Char → List Char) (name : String) (r : Row) : Prop :=
  (tokenSet fold name \ genericPrefixTokens) ≠ ∅ ∧
    (tokenSet fold (get_row_name r) \ genericPrefixTokens) ≠ ∅ ∧
    4 * min (tokenSet fold name \ genericPrefixTokens).card
        (tokenSet fold (get_row_name r) \ genericPrefixTokens).card ≤
      5 * ((tokenSet fold name \ genericPrefixTokens) ∩
        (tokenSet fold (get_row_name r) \ genericPrefixTokens)).card

/-- Largest element of a list of scores, with floor 0. -/
def listMax (l : List ℚ) : ℚ := l.foldr max 0

instance supersetMatchDec (fold : Char → List Char) (name : String) (r : Row) :
    Decidable (supersetMatch fold name r) := by
  unfold supersetMatch; infer_instance

instance flexMatchDec (fold : Char → List Char) (name : String) (r : Row) :
    Decidable (flexMatch fold name r) := by
  unfold flexMatch; infer_instance

/-- Characters that can occur in the output of `normalize_text`: lowercase
ASCII letters, ASCII digits, and the single space. -/
def isOutCh (c : Char) : Bool :=
  ('a' ≤ c && c ≤ 'z') || ('0' ≤ c && c ≤ '9') || c = ' '

/-- No two adjacent characters are both the space character. -/
def noTwoSpaces (l : List Char) : Prop :=
  List.Chain' (fun a b => ¬(a = ' ' ∧ b = ' ')) l

/-! ### Concrete instantiations used for evaluation -/

instance exceptDecEq {ε α : Type} [DecidableEq ε] [DecidableEq α] :
    DecidableEq (Except ε α) := fun a b =>
  match a, b with
  | Except.error e, Except.error f => decidable_of_iff (e = f) (by simp)
  | Except.error _, Except.ok _ => isFalse (by simp)
  | Except.ok _, Except.error _ => isFalse (by simp)
  | Except.ok a, Except.ok b => decidable_of_iff (a = b) (by simp)

/-- A concrete character map for evaluating the embedding on ASCII data:
ASCII lowercasing, no decomposition (on ASCII input this agrees with each
of the three Unicode maps of the source). -/
def asciiFold : Char → List Char := fun c => [c.toLower]

/-- The identity character map (adequate for already-lowercased ASCII). -/
def idFold : Char → List Char := fun c => [c]

/-- Gazetteer row whose token set is a superset of the query `"con dao"`. -/
def rowDaoConHon : Row := [("TenDiaDanh", "dao con hon")]

/-- Gazetteer row accepted for `"con dao"` only by the flexible pass. -/
def rowKhuDao : Row := [("TenDiaDanh", "khu dao")]

/-- A gazetteer row with name and coordinates. -/
def rowHoGuom : Row :=
  [("TenDiaDanh", "Ho Guom"), ("lat", "21.03"), ("lng", "105.85")]

/-- Environment with a one-row CSV dataset and a fixed candidate list. -/
def envCsv : GeoEnv :=
  { ntFold := asciiFold, osmFold := asciiFold, lowFold := asciiFold
    openmapKey := none
    openmapResults := fun _ => []
    nominatimNet := fun _ => NomResponse.err
    csvRows := some [rowHoGuom]
    extractCandidates := fun _ => ["Ho Guom"] }

/-- The record the CSV path of `envCsv` resolves for `"Ho Guom"`. -/
def recHoGuom : LocationRecord :=
  { name := "Ho Guom"
    address := ""
    lat := some (2103 / 100)
    lng := some (2117 / 20)
    description := some ""
    imageUrl := none
    source := "csv" }

/-- A Nominatim result located in Dalat. -/
def itemDalat : OsmItem :=
  { lat := "11.94", lon := "108.43"
    display := "Vuon hoa, dalat, Vietnam", addrVals := [] }

/-- Environment without a CSV file whose Nominatim oracle always returns
the Dalat item. -/
def envDalat : GeoEnv :=
  { ntFold := asciiFold, osmFold := asciiFold, lowFold := asciiFold
    openmapKey := none
    openmapResults := fun _ => []
    nominatimNet := fun _ => NomResponse.ok [itemDalat]
    csvRows := none
    extractCandidates := fun _ => [] }

/-- Environment whose Nominatim oracle answers every request with 403. -/
def envForbidden : GeoEnv :=
  { envDalat with nominatimNet := fun _ => NomResponse.forbidden }

/-- The record `envDalat` resolves for `"Vuon hoa"` under the hint
`"Dalat"`. -/
def recDalat : LocationRecord :=
  { name := "Vuon hoa"
    address := "Vuon hoa, dalat, Vietnam"
    lat := some (597 / 50)
    lng := some (10843 / 100)
    description := none
    imageUrl := none
    source := "osm_fallback" }

/-- Environment with a configured OpenMap key whose openmap oracle always
has a result available. -/
def envKeyed : GeoEnv :=
  { envDalat with
    openmapKey := some "k"
    openmapResults := fun _ => [itemDalat] }

/-! ## Lemmas about the text-normalisation pipeline -/

theorem mem_collapseGo {c : Char} :
    ∀ {l : List Char} {b : Bool}, c ∈ collapseGo b l →
      (c ∈ l ∧ pyIsSpace c = false) ∨ c = ' ' := by
  intro l
  induction l with
  | nil => intro b h; simp [collapseGo] at h
  | cons x rest ih =>
    intro b h
    by_cases hx : pyIsSpace x
    · simp only [collapseGo, hx, if_pos] at h
      rcases List.mem_append.1 h with h1 | h2
      · right
        cases b with
        | true => simp at h1
        | false => simpa using h1
      · rcases ih h2 with ⟨hm, hns⟩ | hsp
        · exact Or.inl ⟨List.mem_cons_of_mem _ hm, hns⟩
        · exact Or.inr hsp
    · simp only [collapseGo, hx, if_neg, Bool.false_eq_true, not_false_iff] at h
      rcases List.mem_cons.1 h with rfl | h2
      · exact Or.inl ⟨List.mem_cons_self _ _, by simpa using hx⟩
      · rcases ih h2 with ⟨hm, hns⟩ | hsp
        · exact Or.inl ⟨List.mem_cons_of_mem _ hm, hns⟩
        · exact Or.inr hsp

theorem collapseGo_chain :
    ∀ l : List Char,
      noTwoSpaces (collapseGo false l) ∧ noTwoSpaces (collapseGo true l) ∧
        ∀ c, (collapseGo true l).head? = some c → pyIsSpace c = false := by
  intro l
  induction l with
  | nil => refine ⟨List.chain'_nil, List.chain'_nil, ?_⟩; intro c h; simp [collapseGo] at h
  | cons x rest ih =>
    obtain ⟨ihf, iht, ihh⟩ := ih
    by_cases hx : pyIsSpace x
    · refine ⟨?_, ?_, ?_⟩
      · show noTwoSpaces (collapseGo false (x :: rest))
        simp only [collapseGo, hx, if_pos]
        refine List.chain'_cons'.2 ⟨?_, iht⟩
        intro y hy
        intro ⟨_, hy2⟩
        have := ihh y hy
        rw [hy2] at this
        simp [pyIsSpace] at this
      · show noTwoSpaces (collapseGo true (x :: rest))
        simpa only [collapseGo, hx, if_pos, List.nil_append] using iht
      · intro c h
        simp only [collapseGo, hx, if_pos, List.nil_append] at h
        exact ihh c h
    · have hx' : pyIsSpace x = false := by simpa using hx
      refine ⟨?_, ?_, ?_⟩
      · show noTwoSpaces (collapseGo false (x :: rest))
        simp only [collapseGo, hx', Bool.false_eq_true, if_neg, not_false_iff]
        refine List.chain'_cons'.2 ⟨?_, ihf⟩
        intro y _
        intro ⟨hx2, _⟩
        rw [hx2] at hx'
        simp [pyIsSpace] at hx'
      · show noTwoSpaces (collapseGo true (x :: rest))
        simp only [collapseGo, hx', Bool.false_eq_true, if_neg, not_false_iff]
        refine List.chain'_cons'.2 ⟨?_, ihf⟩
        intro y _
        intro ⟨hx2, _⟩
        rw [hx2] at hx'
        simp [pyIsSpace] at hx'
      · intro c h
        simp only [collapseGo, hx', Bool.false_eq_true, if_neg, not_false_iff,
          List.head?_cons, Option.some.injEq] at h
        rw [← h]; exact hx'

theorem collapseGo_fix :
    ∀ l : List Char, (∀ c ∈ l, pyIsSpace c = true → c = ' ') → noTwoSpaces l →
      collapseGo false l = l ∧
        ((∀ c, l.head? = some c → c ≠ ' ') → collapseGo true l = l) := by
  intro l
  induction l with
  | nil => exact fun _ _ => ⟨rfl, fun _ => rfl⟩
  | cons x rest ih =>
    intro hws hch
    have hch' := List.chain'_cons'.1 hch
    have ihr := ih (fun c hc => hws c (List.mem_cons_of_mem _ hc)) hch'.2
    by_cases hx : pyIsSpace x
    · have hxsp : x = ' ' := hws x (List.mem_cons_self _ _) (by simpa using hx)
      have hhead : ∀ c, rest.head? = some c → c ≠ ' ' := by
        intro c hc hc'
        exact hch'.1 c hc ⟨hxsp, hc'⟩
      constructor
      · simp only [collapseGo, hx, if_pos]
        rw [ihr.2 hhead, hxsp]
        simp
      · intro hh
        exact absurd hxsp (hh x rfl)
    · have hx' : pyIsSpace x = false := by simpa using hx
      constructor
      · simp only [collapseGo, hx', Bool.false_eq_true, if_neg, not_false_iff]
        rw [ihr.1]
      · intro _
        simp only [collapseGo, hx', Bool.false_eq_true, if_neg, not_false_iff]
        rw [ihr.1]

theorem mem_dropTrailingWs {c : Char} :
    ∀ {l : List Char}, c ∈ dropTrailingWs l → c ∈ l := by
  intro l
  induction l with
  | nil => intro h; simpa [dropTrailingWs] using h
  | cons x rest ih =>
    intro h
    simp only [dropTrailingWs] at h
    split at h
    · simp at h
    · rcases List.mem_cons.1 h with rfl | h2
      · exact List.mem_cons_self _ _
      · exact List.mem_cons_of_mem _ (ih h2)

theorem dropTrailingWs_prefixOf : ∀ l : List Char, dropTrailingWs l <+: l := by
  intro l
  induction l with
  | nil => exact List.prefix_rfl
  | cons x rest ih =>
    simp only [dropTrailingWs]
    split
    · exact List.nil_prefix
    · exact List.cons_prefix_cons.2 ⟨rfl, ih⟩

theorem dropTrailingWs_getLast {c : Char} :
    ∀ {l : List Char}, (dropTrailingWs l).getLast? = some c → pyIsSpace c = false := by
  intro l
  induction l with
  | nil => intro h; simp [dropTrailingWs] at h
  | cons x rest ih =>
    intro h
    simp only [dropTrailingWs] at h
    split at h
    · simp at h
    · next hcond =>
      rcases hr : dropTrailingWs rest with _ | ⟨y, ys⟩
      · rw [hr] at h
        simp only [List.getLast?_singleton, Option.some.injEq] at h
        rw [hr] at hcond
        simp only [List.isEmpty_nil, Bool.true_and, Bool.not_eq_true] at hcond
        rw [← h]
        simpa using hcond
      · rw [hr] at h
        rw [List.getLast?_cons_cons] at h
        exact ih (hr ▸ h)

theorem dropTrailingWs_head {c : Char} :
    ∀ {l : List Char}, (dropTrailingWs l).head? = some c → l.head? = some c := by
  intro l
  cases l with
  | nil => intro h; simp [dropTrailingWs] at h
  | cons x rest =>
    intro h
    simp only [dropTrailingWs] at h
    split at h
    · simp at h
    · simpa using h

theorem dropTrailingWs_fix :
    ∀ l : List Char, (∀ c, l.getLast? = some c → pyIsSpace c = false) →
      dropTrailingWs l = l := by
  intro l
  induction l with
  | nil => intro _; rfl
  | cons x rest ih =>
    intro hl
    cases hrest : rest with
    | nil =>
      have := hl x (by rw [hrest]; rfl)
      simp [dropTrailingWs, hrest, this]
    | cons y ys =>
      have hrec : dropTrailingWs rest = rest := by
        apply ih
        intro c hc
        apply hl
        rw [hrest] at hc ⊢
        rw [List.getLast?_cons_cons]
        exact hc
      have hne : (dropTrailingWs rest).isEmpty = false := by
        rw [hrec, hrest]; rfl
      rw [← hrest]
      show (if (dropTrailingWs rest).isEmpty && pyIsSpace x then []
        else x :: dropTrailingWs rest) = x :: rest
      rw [hne, hrec]
      simp

theorem dropWhile_head_not {p : Char → Bool} {c : Char} :
    ∀ {l : List Char}, (l.dropWhile p).head? = some c → p c = false := by
  intro l
  induction l with
  | nil => intro h; simp at h
  | cons x rest ih =>
    intro h
    by_cases hx : p x
    · rw [List.dropWhile_cons_of_pos hx] at h
      exact ih h
    · rw [List.dropWhile_cons_of_neg hx] at h
      simp only [List.head?_cons, Option.some.injEq] at h
      rw [← h]
      simpa using hx

theorem dropWhile_fix {p : Char → Bool} :
    ∀ {l : List Char}, (∀ c, l.head? = some c → p c = false) →
      l.dropWhile p = l := by
  intro l h
  cases l with
  | nil => rfl
  | cons x rest =>
    have := h x rfl
    simp [List.dropWhile_cons, this]

theorem mem_pyStrip {c : Char} {l : List Char} (h : c ∈ pyStrip l) : c ∈ l :=
  (List.dropWhile_sublist pyIsSpace).mem (mem_dropTrailingWs h)

theorem pyStrip_head {c : Char} {l : List Char}
    (h : (pyStrip l).head? = some c) : pyIsSpace c = false :=
  dropWhile_head_not (dropTrailingWs_head h)

theorem pyStrip_getLast {c : Char} {l : List Char}
    (h : (pyStrip l).getLast? = some c) : pyIsSpace c = false :=
  dropTrailingWs_getLast h

theorem pyStrip_chain {l : List Char} (h : noTwoSpaces l) :
    noTwoSpaces (pyStrip l) :=
  List.Chain'.prefix
    (List.Chain'.suffix h (List.dropWhile_suffix pyIsSpace))
    (dropTrailingWs_prefixOf _)

theorem pyStrip_fix {l : List Char}
    (hh : ∀ c, l.head? = some c → pyIsSpace c = false)
    (hl : ∀ c, l.getLast? = some c → pyIsSpace c = false) :
    pyStrip l = l := by
  unfold pyStrip
  rw [dropWhile_fix hh]
  exact dropTrailingWs_fix l hl

theorem flatMap_singleton_id {f : Char → List Char} :
    ∀ {l : List Char}, (∀ c ∈ l, f c = [c]) → l.flatMap f = l := by
  intro l
  induction l with
  | nil => intro _; rfl
  | cons x rest ih =>
    intro h
    rw [List.flatMap_cons, h x (List.mem_cons_self _ _),
      ih fun c hc => h c (List.mem_cons_of_mem _ hc)]
    rfl

theorem map_self_of_fix {f : Char → Char} :
    ∀ {l : List Char}, (∀ a ∈ l, f a = a) → l.map f = l := by
  intro l
  induction l with
  | nil => intro _; rfl
  | cons x rest ih =>
    intro h
    rw [List.map_cons, h x (List.mem_cons_self _ _),
      ih fun c hc => h c (List.mem_cons_of_mem _ hc)]

theorem mem_regexPass {c : Char} {l : List Char} (h : c ∈ regexPass l) :
    keepCh c = true := by
  rcases List.mem_map.1 h with ⟨d, _, hd⟩
  by_cases hk : keepCh d
  · rw [← hd]; simpa [hk] using hk
  · have : c = ' ' := by rw [← hd]; simp [hk]
    rw [this]
    simp [keepCh, pyIsSpace]

theorem isOut_ws_eq_space {c : Char} (h1 : isOutCh c = true)
    (h2 : pyIsSpace c = true) : c = ' ' := by
  simp only [pyIsSpace, Bool.or_eq_true, decide_eq_true_eq] at h2
  rcases h2 with ((((rfl | rfl) | rfl) | rfl) | rfl) | rfl
  · rfl
  all_goals exact absurd h1 (by decide)

theorem keep_of_isOut {c : Char} (h : isOutCh c = true) : keepCh c = true := by
  simp only [isOutCh, Bool.or_eq_true, Bool.and_eq_true, decide_eq_true_eq] at h
  rcases h with (⟨h1, h2⟩ | ⟨h1, h2⟩) | rfl
  · simp [keepCh, h1, h2]
  · simp [keepCh, h1, h2]
  · decide

theorem normList_mem {fold : Char → List Char} {l : List Char} {c : Char}
    (h : c ∈ normList fold l) : isOutCh c = true := by
  have h1 := mem_pyStrip h
  rcases mem_collapseGo h1 with ⟨h2, hws⟩ | rfl
  · have hk := mem_regexPass h2
    simp only [keepCh, Bool.or_eq_true, Bool.and_eq_true] at hk
    rcases hk with (⟨h3, h4⟩ | ⟨h3, h4⟩) | h5
    · simp [isOutCh, h3, h4]
    · simp [isOutCh, h3, h4]
    · rw [h5] at hws; cases hws
  · decide

theorem normList_chain (fold : Char → List Char) (l : List Char) :
    noTwoSpaces (normList fold l) :=
  pyStrip_chain (collapseGo_chain (regexPass (l.flatMap fold))).1

theorem normList_head {fold : Char → List Char} {l : List Char} {c : Char}
    (h : (normList fold l).head? = some c) : pyIsSpace c = false :=
  pyStrip_head h

theorem normList_last {fold : Char → List Char} {l : List Char} {c : Char}
    (h : (normList fold l).getLast? = some c) : pyIsSpace c = false :=
  pyStrip_getLast h

theorem normList_fix {fold : Char → List Char}
    (hfold : ∀ c, isOutCh c = true → fold c = [c]) (l : List Char) :
    normList fold (normList fold l) = normList fold l := by
  set m := normList fold l with hm
  have hmem : ∀ c ∈ m, isOutCh c = true := fun c hc => normList_mem (hm ▸ hc)
  have h1 : m.flatMap fold = m :=
    flatMap_singleton_id fun c hc => hfold c (hmem c hc)
  have h2 : regexPass m = m :=
    map_self_of_fix fun a ha => by simp [keep_of_isOut (hmem a ha)]
  have hws : ∀ c ∈ m, pyIsSpace c = true → c = ' ' :=
    fun c hc hw => isOut_ws_eq_space (hmem c hc) hw
  have h3 : collapseGo false m = m :=
    (collapseGo_fix m hws (hm ▸ normList_chain fold l)).1
  have h4 : pyStrip m = m :=
    pyStrip_fix (fun c hc => normList_head (hm ▸ hc))
      (fun c hc => normList_last (hm ▸ hc))
  show pyStrip (collapseWs (regexPass (m.flatMap fold))) = m
  rw [h1, h2]
  show pyStrip (collapseGo false m) = m
  rw [h3, h4]

/-- C9: `normalize_text` is idempotent, for every Unicode character map
that fixes the characters of its own output alphabet (lowercase ASCII
letters, digits, and the space — real `lower`/NFD/strip-marks does). -/
theorem claim_C9_normalize_idempotent (fold : Char → List Char)
    (hfold : ∀ c, isOutCh c = true → fold c = [c]) (s : String) :
    normalize_text fold (normalize_text fold s) = normalize_text fold s := by
  unfold normalize_text
  exact congrArg String.mk (normList_fix hfold s.data)

/-- C9 witness: the hypothesis and the idempotence instance at a concrete
noisy input, with the identity character map. -/
theorem claim_C9_witness :
    (∀ c, isOutCh c = true → idFold c = [c]) ∧
      normalize_text idFold (normalize_text idFold " danh;; thang   yen tu! ") =
        normalize_text idFold " danh;; thang   yen tu! " :=
  ⟨fun _ _ => rfl,
    claim_C9_normalize_idempotent idFold (fun _ _ => rfl) " danh;; thang   yen tu! "⟩

/-! ## Lemmas about find_best_match -/

theorem acceptRow_iff {fold : Char → List Char} {name : String} {r : Row} :
    acceptRow fold (tokenSet fold name) r = true ↔
      get_row_name r ≠ "" ∧ tokenSet fold (get_row_name r) ≠ ∅ ∧
        (supersetMatch fold name r ∨ flexMatch fold name r) := by
  simp only [acceptRow]
  split_ifs with h1 h2 h3
  · simp only [Bool.false_eq_true, false_iff]
    rintro ⟨hne, _⟩
    exact hne h1
  · simp only [Bool.false_eq_true, false_iff]
    rintro ⟨_, hne, _⟩
    exact hne h2
  · simp only [true_iff]
    exact ⟨h1, h2, Or.inl h3⟩
  · rw [decide_eq_true_eq]
    constructor
    · intro hf
      exact ⟨h1, h2, Or.inr hf⟩
    · rintro ⟨_, _, hs | hf⟩
      · exact absurd hs h3
      · exact hf

theorem mem_acceptedCandidates_iff {fold : Char → List Char} {name : String}
    {rows : List Row} {r : Row} :
    r ∈ acceptedCandidates fold name rows ↔
      r ∈ rows ∧ get_row_name r ≠ "" ∧ tokenSet fold (get_row_name r) ≠ ∅ ∧
        (supersetMatch fold name r ∨ flexMatch fold name r) := by
  unfold acceptedCandidates
  rw [List.mem_filter, acceptRow_iff]

/-- C4 counterexample: for the query `"con dao"`, the row `"dao con hon"`
is a superset match, yet the row `"khu dao"` — not a superset match — is
also accepted (by the flexible pass run on that same row), so the accepted
candidate set does not consist solely of superset-matched rows. -/
theorem claim_C4_counterexample :
    supersetMatch asciiFold "con dao" rowDaoConHon ∧
      rowKhuDao ∈ acceptedCandidates asciiFold "con dao" [rowDaoConHon, rowKhuDao] ∧
      ¬ supersetMatch asciiFold "con dao" rowKhuDao := by
  refine ⟨?_, ?_, ?_⟩ <;> decide

/-- C4 amended: the flexible pass is applied row by row, not gated on the
absence of superset matches: a row is accepted exactly when it has a
non-empty name with a non-empty token set and is either a superset match
or a flexible (80 percent reduced-overlap) match, independently of how the
other rows matched. -/
theorem claim_C4_amended (fold : Char → List Char) (name : String)
    (rows : List Row) (r : Row) :
    r ∈ acceptedCandidates fold name rows ↔
      r ∈ rows ∧ get_row_name r ≠ "" ∧ tokenSet fold (get_row_name r) ≠ ∅ ∧
        (supersetMatch fold name r ∨ flexMatch fold name r) :=
  mem_acceptedCandidates_iff

/-! ## The fuzzy score: positivity on accepted rows -/

theorem listMax_nonneg : ∀ l : List ℚ, 0 ≤ listMax l := by
  intro l
  induction l with
  | nil => exact le_refl 0
  | cons x l ih => exact le_trans ih (le_max_right x (listMax l))

theorem listMax_ge {x : ℚ} : ∀ {l : List ℚ}, x ∈ l → x ≤ listMax l := by
  intro l
  induction l with
  | nil => intro h; cases h
  | cons y l ih =>
    intro h
    rcases List.mem_cons.1 h with rfl | h2
    · exact le_max_left _ _
    · exact le_trans (ih h2) (le_max_right _ _)

theorem foldl_third_mono {α : Type} (F : Nat × Nat × Nat → α → Nat × Nat × Nat)
    (hmono : ∀ acc x, acc.2.2 ≤ (F acc x).2.2) :
    ∀ (l : List α) (acc : Nat × Nat × Nat), acc.2.2 ≤ (l.foldl F acc).2.2 := by
  intro l
  induction l with
  | nil => intro acc; exact le_refl _
  | cons x l ih => intro acc; exact le_trans (hmono acc x) (ih (F acc x))

theorem foldl_third_ge {α : Type} (F : Nat × Nat × Nat → α → Nat × Nat × Nat)
    (g : α → Nat) (hstep : ∀ acc x, (F acc x).2.2 = max acc.2.2 (g x)) :
    ∀ (l : List α) (acc : Nat × Nat × Nat) (x : α), x ∈ l →
      g x ≤ (l.foldl F acc).2.2 := by
  intro l
  induction l with
  | nil => intro acc x h; cases h
  | cons y l ih =>
    intro acc x h
    have hmono : ∀ acc x, acc.2.2 ≤ (F acc x).2.2 := by
      intro acc x
      rw [hstep]
      exact le_max_left _ _
    rcases List.mem_cons.1 h with rfl | h2
    · refine le_trans ?_ (foldl_third_mono F hmono l (F acc x))
      rw [hstep]
      exact le_max_right _ _
    · exact ih (F acc y) x h2

theorem findLongestMatch_ge {a b : List Char} {i j : Nat}
    (hi : i < a.length) (hj : j < b.length) :
    runAt a b i j ≤ (findLongestMatch a b).2.2 := by
  have hstep : ∀ (i0 : Nat) (acc : Nat × Nat × Nat) (x : Nat),
      ((fun best j =>
          let k := runAt a b i0 j
          if best.2.2 < k then (i0, j, k) else best) acc x).2.2 =
        max acc.2.2 (runAt a b i0 x) := by
    intro i0 acc x
    by_cases h : acc.2.2 < runAt a b i0 x
    · simp only [h, if_pos]
      exact (max_eq_right (le_of_lt h)).symm
    · simp only [h, if_neg, not_false_iff]
      exact (max_eq_left (le_of_not_lt h)).symm
  have hinner_mono : ∀ (i0 : Nat) (acc : Nat × Nat × Nat),
      acc.2.2 ≤ ((List.range b.length).foldl
        (fun best j =>
          let k := runAt a b i0 j
          if best.2.2 < k then (i0, j, k) else best) acc).2.2 := by
    intro i0 acc
    apply foldl_third_mono
    intro acc' x
    rw [hstep i0 acc' x]
    exact le_max_left _ _
  unfold findLongestMatch
  obtain ⟨s, t, hst⟩ := List.append_of_mem (List.mem_range.2 hi)
  rw [hst, List.foldl_append, List.foldl_cons]
  refine le_trans ?_ (foldl_third_mono _ (fun acc x => hinner_mono x acc) t _)
  exact foldl_third_ge _ (runAt a b i) (hstep i) _ _ j (List.mem_range.2 hj)

theorem matchTotal_ge_one {a b : List Char} {c : Char} (ha : c ∈ a)
    (hb : c ∈ b) : 1 ≤ matchTotal (a.length + b.length) a b := by
  obtain ⟨i, hi, hia⟩ := List.mem_iff_getElem.1 ha
  obtain ⟨j, hj, hjb⟩ := List.mem_iff_getElem.1 hb
  have hrun : 1 ≤ runAt a b i j := by
    unfold runAt
    rw [List.drop_eq_getElem_cons hi, List.drop_eq_getElem_cons hj, hia, hjb]
    simp only [runLen, if_pos]
    omega
  have hk : 1 ≤ (findLongestMatch a b).2.2 :=
    le_trans hrun (findLongestMatch_ge hi hj)
  obtain ⟨n, hn⟩ : ∃ n, a.length + b.length = n + 1 :=
    ⟨a.length + b.length - 1, by omega⟩
  rw [hn]
  show 1 ≤ matchTotal (n + 1) a b
  simp only [matchTotal]
  have hne : (findLongestMatch a b).2.2 ≠ 0 := by omega
  rw [if_neg hne]
  omega

theorem seqRatio_pos {a b : List Char} {c : Char} (ha : c ∈ a) (hb : c ∈ b) :
    0 < seqRatio a b := by
  have hla : 0 < a.length := List.length_pos.2 (List.ne_nil_of_mem ha)
  have hlb : 0 < b.length := List.length_pos.2 (List.ne_nil_of_mem hb)
  unfold seqRatio
  rw [if_neg (by omega)]
  apply div_pos
  · have h1 := matchTotal_ge_one ha hb
    have : (0 : ℚ) < (matchTotal (a.length + b.length) a b : ℚ) := by
      exact_mod_cast lt_of_lt_of_le Nat.zero_lt_one h1
    linarith
  · have : (0 : ℚ) < (a.length : ℚ) := by exact_mod_cast hla
    have h2 : (0 : ℚ) ≤ (b.length : ℚ) := by positivity
    linarith

theorem pySplitGo_mem :
    ∀ (l : List Char) (acc t : List Char), t ∈ pySplitGo acc l →
      t ≠ [] ∧ ∀ c ∈ t, c ∈ acc ∨ c ∈ l := by
  intro l
  induction l with
  | nil =>
    intro acc t h
    simp only [pySplitGo] at h
    split at h
    · cases h
    · next hacc =>
      rcases List.mem_singleton.1 h with rfl
      refine ⟨?_, ?_⟩
      · simp only [ne_eq, List.reverse_eq_nil_iff]
        simpa [List.isEmpty_iff] using hacc
      · intro c hc
        exact Or.inl (List.mem_reverse.1 hc)
  | cons x rest ih =>
    intro acc t h
    by_cases hx : pyIsSpace x
    · simp only [pySplitGo, hx, if_pos] at h
      by_cases hacc : acc.isEmpty
      · rw [if_pos hacc] at h
        obtain ⟨hne, hmem⟩ := ih [] t h
        refine ⟨hne, fun c hc => ?_⟩
        rcases hmem c hc with h0 | h1
        · cases h0
        · exact Or.inr (List.mem_cons_of_mem _ h1)
      · rw [if_neg hacc] at h
        rcases List.mem_cons.1 h with rfl | h2
        · refine ⟨?_, fun c hc => Or.inl (List.mem_reverse.1 hc)⟩
          simp only [ne_eq, List.reverse_eq_nil_iff]
          simpa [List.isEmpty_iff] using hacc
        · obtain ⟨hne, hmem⟩ := ih [] t h2
          refine ⟨hne, fun c hc => ?_⟩
          rcases hmem c hc with h0 | h1
          · cases h0
          · exact Or.inr (List.mem_cons_of_mem _ h1)
    · simp only [pySplitGo, hx, Bool.false_eq_true, if_neg, not_false_iff] at h
      obtain ⟨hne, hmem⟩ := ih (x :: acc) t h
      refine ⟨hne, fun c hc => ?_⟩
      rcases hmem c hc with h0 | h1
      · rcases List.mem_cons.1 h0 with rfl | h0'
        · exact Or.inr (List.mem_cons_self _ _)
        · exact Or.inl h0'
      · exact Or.inr (List.mem_cons_of_mem _ h1)

theorem tokenSet_mem_chars {fold : Char → List Char} {s : String}
    {t : List Char} (h : t ∈ tokenSet fold s) :
    t ≠ [] ∧ ∀ c ∈ t, c ∈ normList fold s.data := by
  have h1 : t ∈ pySplit (normList fold s.data) := List.mem_toFinset.1 h
  obtain ⟨hne, hmem⟩ := pySplitGo_mem _ [] t h1
  refine ⟨hne, fun c hc => ?_⟩
  rcases hmem c hc with h0 | h1
  · cases h0
  · exact h1

theorem rowScore_pos {fold : Char → List Char} {name : String}
    {rows : List Row} {r : Row} (hr : r ∈ acceptedCandidates fold name rows) :
    0 < rowScore fold (normList fold name.data) r := by
  obtain ⟨_, _, _, hcase⟩ := mem_acceptedCandidates_iff.1 hr
  have hct : ∃ t, t ∈ tokenSet fold name ∧
      t ∈ tokenSet fold (get_row_name r) := by
    rcases hcase with ⟨hq, hsub⟩ | ⟨hqc, hrc, hcard⟩
    · obtain ⟨t, ht⟩ := Finset.nonempty_iff_ne_empty.2 hq
      exact ⟨t, ht, hsub ht⟩
    · have hql : 1 ≤ (tokenSet fold name \ genericPrefixTokens).card :=
        Finset.card_pos.2 (Finset.nonempty_iff_ne_empty.2 hqc)
      have hrl : 1 ≤ (tokenSet fold (get_row_name r) \ genericPrefixTokens).card :=
        Finset.card_pos.2 (Finset.nonempty_iff_ne_empty.2 hrc)
      have h1 : 1 ≤ ((tokenSet fold name \ genericPrefixTokens) ∩
          (tokenSet fold (get_row_name r) \ genericPrefixTokens)).card := by
        omega
      obtain ⟨t, ht⟩ := Finset.card_pos.1 h1
      have ht2 := Finset.mem_inter.1 ht
      exact ⟨t, (Finset.mem_sdiff.1 ht2.1).1, (Finset.mem_sdiff.1 ht2.2).1⟩
  obtain ⟨t, htq, htr⟩ := hct
  obtain ⟨hne1, hsub1⟩ := tokenSet_mem_chars htq
  obtain ⟨_, hsub2⟩ := tokenSet_mem_chars htr
  obtain ⟨c, hc⟩ : ∃ c, c ∈ t := by
    cases t with
    | nil => exact absurd rfl hne1
    | cons c _ => exact ⟨c, List.mem_cons_self _ _⟩
  exact seqRatio_pos (hsub1 c hc) (hsub2 c hc)

/-! ## The best-score scan and the tie-break rule -/

theorem bestScan_fst :
    ∀ (l : List (Row × ℚ)) (init : ℚ × Option Row), 0 ≤ init.1 →
      (bestScan init l).1 = max init.1 (listMax (l.map Prod.snd)) := by
  intro l
  induction l with
  | nil =>
    intro init h0
    show init.1 = max init.1 (listMax [])
    rw [max_eq_left]
    exact h0
  | cons p l ih =>
    intro init h0
    show (bestScan (if init.1 < p.2 then (p.2, some p.1) else init) l).1 = _
    have hstep : (if init.1 < p.2 then (p.2, some p.1) else init).1 =
        max init.1 p.2 := by
      by_cases h : init.1 < p.2
      · rw [if_pos h]
        exact (max_eq_right (le_of_lt h)).symm
      · rw [if_neg h]
        exact (max_eq_left (le_of_not_lt h)).symm
    rw [ih _ (by rw [hstep]; exact le_trans h0 (le_max_left _ _)), hstep]
    show max (max init.1 p.2) (listMax (l.map Prod.snd)) =
      max init.1 (max p.2 (listMax (l.map Prod.snd)))
    rw [max_assoc]

theorem bestScan_prov :
    ∀ (l : List (Row × ℚ)) (init : ℚ × Option Row),
      bestScan init l = init ∨
        ∃ p ∈ l, (bestScan init l).2 = some p.1 ∧ (bestScan init l).1 = p.2 := by
  intro l
  induction l with
  | nil => intro init; exact Or.inl rfl
  | cons p l ih =>
    intro init
    have hunfold : bestScan init (p :: l) =
        bestScan (if init.1 < p.2 then (p.2, some p.1) else init) l := rfl
    by_cases h : init.1 < p.2
    · rw [hunfold, if_pos h]
      rcases ih (p.2, some p.1) with heq | ⟨q, hq, h2, h1⟩
      · exact Or.inr ⟨p, List.mem_cons_self _ _, by rw [heq], by rw [heq]⟩
      · exact Or.inr ⟨q, List.mem_cons_of_mem _ hq, h2, h1⟩
    · rw [hunfold, if_neg h]
      rcases ih init with heq | ⟨q, hq, h2, h1⟩
      · exact Or.inl heq
      · exact Or.inr ⟨q, List.mem_cons_of_mem _ hq, h2, h1⟩

theorem get_row_name_nil : get_row_name ([] : Row) = "" := rfl

theorem find_best_match_spec (fold : Char → List Char) (name : String)
    (rows : List Row) (minScore : ℚ)
    (hne : acceptedCandidates fold name rows ≠ []) :
    ∃ br ∈ acceptedCandidates fold name rows,
      rowScore fold (normList fold name.data) br =
        listMax ((acceptedCandidates fold name rows).map
          (rowScore fold (normList fold name.data))) ∧
      find_best_match fold name rows minScore =
        (if (acceptedCandidates fold name rows).length = 1 then some br
         else if minScore ≤ listMax ((acceptedCandidates fold name rows).map
             (rowScore fold (normList fold name.data))) then some br
         else none) := by
  set cands := acceptedCandidates fold name rows with hcands
  set nn := normList fold name.data with hnn
  set sc := rowScore fold nn with hsc
  set scored := cands.map fun r => (r, sc r) with hscored
  have hmapsnd : scored.map Prod.snd = cands.map sc := by
    rw [hscored, List.map_map]
    rfl
  have h1 : (bestScan (0, none) scored).1 = listMax (cands.map sc) := by
    rw [bestScan_fst scored (0, none) (le_refl 0), hmapsnd]
    exact max_eq_right (listMax_nonneg _)
  have hpos : ∀ r ∈ cands, 0 < sc r := fun r hr => rowScore_pos (hcands ▸ hr)
  obtain ⟨r0, hr0⟩ : ∃ r, r ∈ cands := List.exists_mem_of_ne_nil cands hne
  have hmaxpos : 0 < listMax (cands.map sc) :=
    lt_of_lt_of_le (hpos r0 hr0) (listMax_ge (List.mem_map_of_mem sc hr0))
  rcases bestScan_prov scored (0, none) with heq | ⟨p, hp, h2, h1'⟩
  · exfalso
    have : (bestScan (0, none) scored).1 = 0 := by rw [heq]
    rw [h1] at this
    exact absurd this (ne_of_gt hmaxpos)
  · obtain ⟨br, hbr, hbrp⟩ := List.mem_map.1 hp
    have hbr2 : (bestScan (0, none) scored).2 = some br := by
      rw [h2, ← hbrp]
    have hbrsc : sc br = listMax (cands.map sc) := by
      have : (bestScan (0, none) scored).1 = sc br := by rw [h1', ← hbrp]
      rw [h1] at this
      exact this.symm
    refine ⟨br, hbr, hbrsc, ?_⟩
    have hisE : ¬(cands.isEmpty = true) := by
      cases hc : cands with
      | nil => exact absurd hc hne
      | cons x l => simp
    have hbrne : br ≠ ([] : Row) := by
      intro hbrnil
      obtain ⟨_, hname, _⟩ := mem_acceptedCandidates_iff.1 (hcands ▸ hbr)
      rw [hbrnil] at hname
      exact hname get_row_name_nil
    have hpair : bestScan (0, none) scored = (listMax (cands.map sc), some br) :=
      Prod.ext h1 hbr2
    show find_best_match fold name rows minScore = _
    unfold find_best_match
    rw [← hcands, ← hnn, ← hsc, ← hscored, hpair, if_neg hisE]
    dsimp only
    rw [if_neg hbrne]

/-- C5: with exactly one accepted row `find_best_match` returns it whatever
its fuzzy score; with two or more accepted rows it returns a row attaining
the highest SequenceMatcher ratio when that best score reaches `min_score`,
and `none` otherwise. -/
theorem claim_C5_unique_trust_and_threshold (fold : Char → List Char)
    (name : String) (rows : List Row) (minScore : ℚ) :
    (∀ r, acceptedCandidates fold name rows = [r] →
        find_best_match fold name rows minScore = some r) ∧
      (2 ≤ (acceptedCandidates fold name rows).length →
        (minScore ≤ listMax ((acceptedCandidates fold name rows).map
              (rowScore fold (normList fold name.data))) →
            ∃ r ∈ acceptedCandidates fold name rows,
              find_best_match fold name rows minScore = some r ∧
                rowScore fold (normList fold name.data) r =
                  listMax ((acceptedCandidates fold name rows).map
                    (rowScore fold (normList fold name.data)))) ∧
          (listMax ((acceptedCandidates fold name rows).map
              (rowScore fold (normList fold name.data))) < minScore →
            find_best_match fold name rows minScore = none)) := by
  constructor
  · intro r hr
    have hne : acceptedCandidates fold name rows ≠ [] := by rw [hr]; simp
    obtain ⟨br, hbr, _, heq⟩ := find_best_match_spec fold name rows minScore hne
    have hbrr : br = r := by
      rw [hr] at hbr
      exact List.mem_singleton.1 hbr
    subst hbrr
    rw [heq, if_pos (by rw [hr]; rfl)]
  · intro hlen
    have hne : acceptedCandidates fold name rows ≠ [] := by
      intro h
      rw [h] at hlen
      simp at hlen
    obtain ⟨br, hbr, hscmax, heq⟩ := find_best_match_spec fold name rows minScore hne
    have hlen1 : ¬((acceptedCandidates fold name rows).length = 1) := by omega
    constructor
    · intro hmin
      exact ⟨br, hbr, by rw [heq, if_neg hlen1, if_pos hmin], hscmax⟩
    · intro hlt
      rw [heq, if_neg hlen1, if_neg (not_le.2 hlt)]

set_option maxRecDepth 4000 in
/-- C5 witness: for the query `"con dao"` against the single superset row
`"dao con hon"`, the accepted set is that singleton, the fuzzy score stays
below the 0.99 threshold, and yet the row is returned. -/
theorem claim_C5_witness :
    acceptedCandidates asciiFold "con dao" [rowDaoConHon] = [rowDaoConHon] ∧
      rowScore asciiFold (normList asciiFold "con dao".data) rowDaoConHon <
        99 / 100 ∧
      find_best_match asciiFold "con dao" [rowDaoConHon] (99 / 100) =
        some rowDaoConHon :=
  ⟨by decide, by with_unfolding_all decide,
    (claim_C5_unique_trust_and_threshold asciiFold "con dao" [rowDaoConHon]
        (99 / 100)).1 rowDaoConHon (by decide)⟩

theorem find_best_match_mem {fold : Char → List Char} {name : String}
    {rows : List Row} {minScore : ℚ} {r : Row}
    (h : find_best_match fold name rows minScore = some r) :
    r ∈ acceptedCandidates fold name rows := by
  by_cases hne : acceptedCandidates fold name rows = []
  · exfalso
    unfold find_best_match at h
    rw [hne] at h
    simp at h
  · obtain ⟨br, hbr, _, heq⟩ := find_best_match_spec fold name rows minScore hne
    rw [heq] at h
    split_ifs at h <;> simp only [Option.some.injEq] at h <;>
      first
        | exact h ▸ hbr
        | cases h

/-! ## The circuit breaker -/

/-- C2: once a Nominatim request observes HTTP 403 the disabled flag is
set, and from then on every `query_nominatim` call, for every query string,
returns the empty list without issuing a network request, the flag staying
set for the rest of the trace. -/
theorem claim_C2_circuit_breaker (env : GeoEnv) (q0 : String)
    (h403 : env.nominatimNet q0 = NomResponse.forbidden) :
    query_nominatim env false q0 = ([], true, true) ∧
      ∀ qs : List String,
        runNominatim env true qs = (qs.map fun _ => ([], false), true) := by
  constructor
  · simp [query_nominatim, h403]
  · intro qs
    induction qs with
    | nil => rfl
    | cons q qs ih =>
      show runNominatim env true (q :: qs) = _
      unfold runNominatim
      dsimp only
      rw [show query_nominatim env true q = ([], true, false) from rfl]
      dsimp only
      rw [ih]
      rfl

/-- C2 witness: the trip and the quiescent tail evaluated in the
all-forbidden environment. -/
theorem claim_C2_witness :
    envForbidden.nominatimNet "Chua Bai Dinh, Ninh Binh, Viet Nam" =
        NomResponse.forbidden ∧
      query_nominatim envForbidden false "Chua Bai Dinh, Ninh Binh, Viet Nam" =
        ([], true, true) ∧
      runNominatim envForbidden true ["Hang Mua", "Trang An"] =
        ([([], false), ([], false)], true) :=
  ⟨rfl,
    (claim_C2_circuit_breaker envForbidden "Chua Bai Dinh, Ninh Binh, Viet Nam"
        rfl).1,
    (claim_C2_circuit_breaker envForbidden "Chua Bai Dinh, Ninh Binh, Viet Nam"
        rfl).2 ["Hang Mua", "Trang An"]⟩

/-- C1 counterexample: with the breaker tripped and the OpenMap key
configured, `search_osm_location` returns `none` without issuing any
provider request — contrary to the claim, the primary provider is not
queried either; the same environment does query it when the flag is
clear, so the short-circuit is due to the flag alone. -/
theorem claim_C1_counterexample :
    envKeyed.openmapKey.isSome = true ∧
      search_osm_location envKeyed true "Ho Guom" DEFAULT_OSM_CONTEXT none none =
        (none, true, []) ∧
      (search_osm_location envKeyed false "Ho Guom" DEFAULT_OSM_CONTEXT
          none none).2.2 ≠ [] := by
  refine ⟨rfl, rfl, ?_⟩
  with_unfolding_all decide

/-- C1 amended: once `OSM_DISABLED` is set, `search_osm_location`
short-circuits the whole resolution at entry: it returns `none` at once
and issues no request to either provider, regardless of the configured
API key, the name, the context, or the region hint. -/
theorem claim_C1_amended (env : GeoEnv) (name ctx : String)
    (hint orig : Option String) :
    search_osm_location env true name ctx hint orig = (none, true, []) := rfl

/-! ## The region filter of search_osm_location -/

theorem pickItem_spec {env : GeoEnv} {parts : List (List Char)} {it : OsmItem} :
    ∀ {items : List OsmItem}, pickItem env parts items = some it →
      (parse_float it.lat).isSome ∧ (parse_float it.lon).isSome ∧
        ∀ rp ∈ parts, listContains rp (osmNormL env (itemAddrText it)) = true := by
  intro items
  induction items with
  | nil => intro h; simp [pickItem] at h
  | cons x rest ih =>
    intro h
    unfold pickItem at h
    split_ifs at h with h1 h2 h3
    · rcases Option.some.inj h with rfl
      refine ⟨h1.1, h1.2, ?_⟩
      intro rp hrp
      rw [List.isEmpty_iff.1 h2] at hrp
      cases hrp
    · rcases Option.some.inj h with rfl
      exact ⟨h1.1, h1.2, List.all_eq_true.1 h3⟩
    · exact ih h
    · exact ih h

theorem searchTry_spec {env : GeoEnv} {orig : Option String}
    {parts : List (List Char)} {d : Bool} {q qt : String}
    {log : List ProviderCall} {rec : LocationRecord} {d2 : Bool}
    {log2 : List ProviderCall}
    (h : searchTry env orig parts d q qt log = (some rec, d2, log2)) :
    ∃ (it : OsmItem) (label : String),
      (parse_float it.lat).isSome ∧ (parse_float it.lon).isSome ∧
        (∀ rp ∈ parts, listContains rp (osmNormL env (itemAddrText it)) = true) ∧
        rec = mkOsmRec orig q it label := by
  unfold searchTry at h
  dsimp only at h
  by_cases hde : (providerData env d qt log).1.isEmpty = true
  · rw [if_pos hde] at h
    exact absurd h (by simp)
  · rw [if_neg hde] at h
    rcases hpick : pickItem env parts (providerData env d qt log).1 with _ | it
    · rw [hpick] at h
      exact absurd h (by simp)
    · rw [hpick] at h
      simp only [Prod.mk.injEq, Option.some.injEq] at h
      exact ⟨it, _, (pickItem_spec hpick).1, (pickItem_spec hpick).2.1,
        (pickItem_spec hpick).2.2, h.1.symm⟩

theorem searchGo_spec {env : GeoEnv} {hint : Option String} {ctx : String}
    {orig : Option String} {parts : List (List Char)} {rec : LocationRecord} :
    ∀ {qs : List String} {d d2 : Bool} {log log2 : List ProviderCall},
      searchGo env hint ctx orig parts d qs log = (some rec, d2, log2) →
      ∃ (q : String) (it : OsmItem) (label : String),
        (parse_float it.lat).isSome ∧ (parse_float it.lon).isSome ∧
          (∀ rp ∈ parts, listContains rp (osmNormL env (itemAddrText it)) = true) ∧
          rec = mkOsmRec orig q it label := by
  intro qs
  induction qs with
  | nil => intro d d2 log log2 h; simp [searchGo] at h
  | cons q qs ih =>
    intro d d2 log log2 h
    unfold searchGo at h
    split_ifs at h with hlen
    · exact ih h
    · rcases htry : searchTry env orig parts d q (queryTextOf hint ctx q) log with
        ⟨res, d3, log3⟩
      rw [htry] at h
      cases res with
      | some rec' =>
        simp only [Prod.mk.injEq, Option.some.injEq] at h
        obtain ⟨it, label, h1, h2, h3, hrec⟩ := searchTry_spec htry
        exact ⟨q, it, label, h1, h2, h3, h.1 ▸ hrec⟩
      | none => exact ih h

theorem search_osm_location_spec {env : GeoEnv} {d : Bool} {name ctx : String}
    {hint orig : Option String} {rec : LocationRecord} {d2 : Bool}
    {log : List ProviderCall}
    (h : search_osm_location env d name ctx hint orig = (some rec, d2, log)) :
    ∃ (q : String) (it : OsmItem) (label : String),
      (parse_float it.lat).isSome ∧ (parse_float it.lon).isSome ∧
        (∀ rp ∈ (match hint with
            | some hs => regionPartsNorm env hs
            | none => []),
          listContains rp (osmNormL env (itemAddrText it)) = true) ∧
        rec = mkOsmRec orig q it label := by
  unfold search_osm_location at h
  split_ifs at h with hd
  · exact absurd h (by simp)
  · exact searchGo_spec h

/-- C6: whenever `search_osm_location` is given a region hint, any record
it returns was built from a provider item with parseable coordinates whose
combined normalized display-plus-address text contains every normalized
region token derived from the hint, and the record's address and
coordinates are taken from that item. -/
theorem claim_C6_region_filter (env : GeoEnv) (d : Bool) (name ctx hs : String)
    (orig : Option String) (rec : LocationRecord) (d2 : Bool)
    (log : List ProviderCall)
    (hres : search_osm_location env d name ctx (some hs) orig =
      (some rec, d2, log)) :
    ∃ it : OsmItem,
      (∀ rp ∈ regionPartsNorm env hs,
          listContains rp (osmNormL env (itemAddrText it)) = true) ∧
        rec.address = it.display ∧ rec.lat = parse_float it.lat ∧
        rec.lng = parse_float it.lon ∧ rec.lat.isSome ∧ rec.lng.isSome := by
  obtain ⟨q, it, label, h1, h2, h3, hrec⟩ := search_osm_location_spec hres
  refine ⟨it, h3, ?_, ?_, ?_, ?_, ?_⟩
  · rw [hrec]; rfl
  · rw [hrec]; rfl
  · rw [hrec]; rfl
  · rw [hrec]; exact h1
  · rw [hrec]; exact h2

/-! ## resolve_location_by_name -/

/-- C3 counterexample: with the CSV dataset file missing, resolving a
plain (non-address-like) landmark name triggers the lazy dataset load,
whose `FileNotFoundError` propagates out of `resolve_location_by_name`
instead of a record-or-`None` return. -/
theorem claim_C3_counterexample :
    resolve_location_by_name envDalat false "Chua Mot Cot" none =
      Except.error () := by
  with_unfolding_all decide

/-- C3 amended: when the CSV dataset is present, every call to
`resolve_location_by_name` returns a record or `None` and no exception
propagates; only the missing-dataset load error escapes. -/
theorem claim_C3_amended (env : GeoEnv) (rows : List Row)
    (hcsv : env.csvRows = some rows) (d : Bool) (name : String)
    (ctx : Option String) :
    ∃ res, resolve_location_by_name env d name ctx = Except.ok res := by
  unfold resolve_location_by_name
  by_cases h1 : name = ""
  · rw [if_pos h1]
    exact ⟨_, rfl⟩
  · rw [if_neg h1]
    by_cases h2 : looks_like_address env name = true
    · rw [if_pos h2]
      exact ⟨_, rfl⟩
    · rw [if_neg h2]
      have hload : load_locations env =
          Except.ok (rows.map fun r => r.map fun kv => (pyStripS kv.1, kv.2)) := by
        unfold load_locations
        rw [hcsv]
      rw [hload]
      dsimp only
      rcases hm : find_best_match env.ntFold name
          (rows.map fun r => r.map fun kv => (pyStripS kv.1, kv.2))
          (1 / 2 : ℚ) with _ | row
      · exact ⟨_, rfl⟩
      · dsimp only
        rcases hll : get_lat_lng row with ⟨ola, oln⟩
        rcases ola with _ | la <;> rcases oln with _ | ln <;> exact ⟨_, rfl⟩

/-- C3 witness: with the one-row dataset of `envCsv` present, resolution
of a concrete name succeeds with an `ok` outcome. -/
theorem claim_C3_witness :
    ∃ res, resolve_location_by_name envCsv false "Thap Rua" none =
      Except.ok res :=
  claim_C3_amended envCsv [rowHoGuom] rfl false "Thap Rua" none

theorem resolve_spec {env : GeoEnv} {d : Bool} {name : String}
    {ctx : Option String} {rec : LocationRecord} {d2 : Bool}
    {log : List ProviderCall}
    (h : resolve_location_by_name env d name ctx =
      Except.ok (some rec, d2, log)) :
    rec.name ≠ "" ∧ rec.lat.isSome ∧ rec.lng.isSome := by
  unfold resolve_location_by_name at h
  by_cases h1 : name = ""
  · rw [if_pos h1] at h
    exact absurd h (by simp)
  · rw [if_neg h1] at h
    have hosm : ∀ {hint : Option String},
        (Except.ok
            (search_osm_location env d name DEFAULT_OSM_CONTEXT hint (some name)) :
          Except Unit (Option LocationRecord × Bool × List ProviderCall)) =
          Except.ok (some rec, d2, log) →
        rec.name ≠ "" ∧ rec.lat.isSome ∧ rec.lng.isSome := by
      intro hint hh
      have hs := Except.ok.inj hh
      obtain ⟨q, it, label, ha, hb, _, hrec⟩ := search_osm_location_spec hs
      refine ⟨?_, ?_, ?_⟩
      · rw [hrec]
        show (if name ≠ "" then name else q) ≠ ""
        rw [if_pos h1]
        exact h1
      · rw [hrec]
        exact ha
      · rw [hrec]
        exact hb
    by_cases h2 : looks_like_address env name = true
    · rw [if_pos h2] at h
      exact hosm h
    · rw [if_neg h2] at h
      rcases hload : load_locations env with e | rows
      · rw [hload] at h
        simp at h
      · rw [hload] at h
        dsimp only at h
        rcases hm : find_best_match env.ntFold name rows (1 / 2 : ℚ) with _ | row
        · rw [hm] at h
          exact hosm h
        · rw [hm] at h
          dsimp only at h
          rcases hll : get_lat_lng row with ⟨ola, oln⟩
          rcases ola with _ | la <;> rcases oln with _ | ln
          · rw [hll] at h
            exact hosm h
          · rw [hll] at h
            exact hosm h
          · rw [hll] at h
            exact hosm h
          · rw [hll] at h
            have hcsvrec : mkCsvRec row la ln = rec := by
              have := Except.ok.inj h
              exact (Prod.mk.injEq .. ▸ this).1 |> Option.some.inj
            have hrowmem := find_best_match_mem hm
            obtain ⟨_, hname, _⟩ := mem_acceptedCandidates_iff.1 hrowmem
            refine ⟨?_, ?_, ?_⟩
            · rw [← hcsvrec]
              exact hname
            · rw [← hcsvrec]
              rfl
            · rw [← hcsvrec]
              rfl

set_option maxRecDepth 2000 in
/-- C6 witness: the concrete Dalat search, with the hint `"Dalat"`,
returns the record built from the Dalat item, which contains the region
token. -/
theorem claim_C6_witness :
    ∃ it : OsmItem,
      (∀ rp ∈ regionPartsNorm envDalat "Dalat",
          listContains rp (osmNormL envDalat (itemAddrText it)) = true) ∧
        recDalat.address = it.display ∧ recDalat.lat = parse_float it.lat ∧
        recDalat.lng = parse_float it.lon ∧ recDalat.lat.isSome ∧
        recDalat.lng.isSome :=
  claim_C6_region_filter envDalat false "Vuon hoa" DEFAULT_OSM_CONTEXT "Dalat"
    (some "Vuon hoa") recDalat false
    [ProviderCall.nominatim "Vuon hoa, Dalat, Việt Nam"]
    (by with_unfolding_all rfl)

/-! ## The extraction pipeline -/

theorem postFilter_sublist (env : GeoEnv) (m : List (LocationRecord × String)) :
    (postFilter env m).Sublist m := by
  unfold postFilter
  dsimp only
  split_ifs <;> first
    | exact List.Sublist.refl m
    | exact List.filter_sublist m

theorem postFilter_ne_nil (env : GeoEnv) {m : List (LocationRecord × String)}
    (hm : m ≠ []) : postFilter env m ≠ [] := by
  unfold postFilter
  dsimp only
  split_ifs with h1 h2 h3
  · exact hm
  · intro hx
    rw [hx] at h3
    exact h3 rfl
  · exact hm
  · exact hm

theorem resolveAll_spec {env : GeoEnv} {answer : String} :
    ∀ {ns : List String} {d : Bool} {acc : List (LocationRecord × String)}
      {seen : List String} {m : List (LocationRecord × String)} {d2 : Bool},
      resolveAll env answer d acc seen ns = Except.ok (m, d2) →
      (acc.map fun p => p.1.name).Nodup →
      (∀ p ∈ acc, p.1.name ∈ seen) →
      (∀ p ∈ acc, p.1.name ≠ "" ∧ p.1.lat.isSome ∧ p.1.lng.isSome) →
      (m.map fun p => p.1.name).Nodup ∧
        ∀ p ∈ m, p.1.name ≠ "" ∧ p.1.lat.isSome ∧ p.1.lng.isSome := by
  intro ns
  induction ns with
  | nil =>
    intro d acc seen m d2 h hnd hseen hprops
    have hacc : acc = m := by
      have := Except.ok.inj h
      exact (Prod.mk.injEq .. ▸ this).1
    subst hacc
    exact ⟨hnd, hprops⟩
  | cons n ns ih =>
    intro d acc seen m d2 h hnd hseen hprops
    unfold resolveAll at h
    rcases hres : resolve_location_by_name env d n (some answer) with e | ⟨optRec, d3, log3⟩
    · rw [hres] at h
      simp at h
    · rw [hres] at h
      cases optRec with
      | none => exact ih h hnd hseen hprops
      | some rec =>
        dsimp only at h
        obtain ⟨hname, hlat, hlng⟩ := resolve_spec hres
        rw [show (if rec.name ≠ "" then rec.name else n) = rec.name from
          if_pos hname] at h
        by_cases hcont : rec.name ∈ seen
        · rw [if_pos hcont] at h
          exact ih h hnd hseen hprops
        · rw [if_neg hcont] at h
          refine ih h ?_ ?_ ?_
          · rw [List.map_append, List.nodup_append]
            refine ⟨hnd, List.nodup_singleton _, ?_⟩
            intro a ha hb
            have hb' : a = rec.name := by simpa using hb
            obtain ⟨p, hp, hpn⟩ := List.mem_map.1 ha
            have hps : a ∈ seen := by
              rw [← hpn]
              exact hseen p hp
            exact hcont (hb' ▸ hps)
          · intro p hp
            rcases List.mem_append.1 hp with hp1 | hp2
            · exact List.mem_cons_of_mem _ (hseen p hp1)
            · rcases List.mem_singleton.1 hp2 with rfl
              exact List.mem_cons_self _ _
          · intro p hp
            rcases List.mem_append.1 hp with hp1 | hp2
            · exact hprops p hp1
            · rcases List.mem_singleton.1 hp2 with rfl
              exact ⟨hname, hlat, hlng⟩

theorem extract_structure {env : GeoEnv} {d : Bool} {answer : String}
    {recs : List LocationRecord} {d2 : Bool}
    (h : extract_locations_from_answer env d answer = Except.ok (recs, d2)) :
    ∃ (m : List (LocationRecord × String)),
      resolveAll env answer d [] [] (env.extractCandidates answer) =
        Except.ok (m, d2) ∧
      recs = (postFilter env m).map fun p => p.1 := by
  unfold extract_locations_from_answer at h
  rcases hload : load_locations env with e | rows
  · rw [hload] at h
    simp at h
  · rw [hload] at h
    dsimp only at h
    rcases hra : resolveAll env answer d [] [] (env.extractCandidates answer) with
      e | ⟨m, dm⟩
    · rw [hra] at h
      simp at h
    · rw [hra] at h
      dsimp only at h
      have := Except.ok.inj h
      have h1 := (Prod.mk.injEq .. ▸ this).1
      have h2 := (Prod.mk.injEq .. ▸ this).2
      subst h2
      exact ⟨m, rfl, h1.symm⟩

/-- C7: the list returned by `extract_locations_from_answer` never contains
two records with the same `name`: deduplication is performed on the
resolved name and survives the specificity post-filter. -/
theorem claim_C7_no_duplicate_names (env : GeoEnv) (d : Bool) (answer : String)
    (recs : List LocationRecord) (d2 : Bool)
    (h : extract_locations_from_answer env d answer = Except.ok (recs, d2)) :
    (recs.map fun r => r.name).Nodup := by
  obtain ⟨m, hra, hrecs⟩ := extract_structure h
  obtain ⟨hnodup, _⟩ := resolveAll_spec hra List.nodup_nil (by simp) (by simp)
  have hsub : ((postFilter env m).map fun p => p.1.name).Sublist
      (m.map fun p => p.1.name) :=
    (postFilter_sublist env m).map _
  have : (recs.map fun r => r.name) = (postFilter env m).map fun p => p.1.name := by
    rw [hrecs, List.map_map]
    rfl
  rw [this]
  exact hnodup.sublist hsub

set_option maxRecDepth 2000 in
/-- C7 witness: the concrete one-candidate extraction yields pairwise
distinct names. -/
theorem claim_C7_witness : (([recHoGuom]).map fun r => r.name).Nodup :=
  claim_C7_no_duplicate_names envCsv false "Ho Guom" [recHoGuom] false
    (by with_unfolding_all rfl)

/-- C8: the specificity post-filter never turns a non-empty resolved list
into an empty result: when the resolution loop produced at least one
record, `extract_locations_from_answer` returns at least one record (the
filter is skipped when it would delete everything). -/
theorem claim_C8_filter_never_empties (env : GeoEnv) (d : Bool)
    (answer : String) (m : List (LocationRecord × String)) (dm : Bool)
    (recs : List LocationRecord) (d2 : Bool)
    (hra : resolveAll env answer d [] [] (env.extractCandidates answer) =
      Except.ok (m, dm))
    (hex : extract_locations_from_answer env d answer = Except.ok (recs, d2))
    (hm : m ≠ []) : recs ≠ [] := by
  obtain ⟨m2, hra2, hrecs⟩ := extract_structure hex
  have hmm : m = m2 := by
    rw [hra] at hra2
    have := Except.ok.inj hra2
    exact (Prod.mk.injEq .. ▸ this).1
  subst hmm
  rw [hrecs]
  intro hnil
  exact postFilter_ne_nil env hm (List.map_eq_nil.1 hnil)

set_option maxRecDepth 2000 in
/-- C8 witness: the concrete extraction that resolved one record returns a
non-empty list. -/
theorem claim_C8_witness : ([recHoGuom] : List LocationRecord) ≠ [] :=
  claim_C8_filter_never_empties envCsv false "Ho Guom"
    [(recHoGuom, "Ho Guom")] false [recHoGuom] false
    (by with_unfolding_all rfl) (by with_unfolding_all rfl) (by decide)

/-- C10: every record returned by `resolve_location_by_name` — and hence
every record in the output of `extract_locations_from_answer` — carries
both coordinates: `lat` and `lng` are always present, on the CSV path and
on the provider path alike. -/
theorem claim_C10_latlng_present :
    (∀ (env : GeoEnv) (d : Bool) (name : String) (ctx : Option String)
        (rec : LocationRecord) (d2 : Bool) (log : List ProviderCall),
        resolve_location_by_name env d name ctx =
          Except.ok (some rec, d2, log) →
        rec.lat.isSome ∧ rec.lng.isSome) ∧
      ∀ (env : GeoEnv) (d : Bool) (answer : String)
        (recs : List LocationRecord) (d2 : Bool),
        extract_locations_from_answer env d answer = Except.ok (recs, d2) →
        ∀ rec ∈ recs, rec.lat.isSome ∧ rec.lng.isSome := by
  constructor
  · intro env d name ctx rec d2 log h
    exact (resolve_spec h).2
  · intro env d answer recs d2 h rec hrec
    obtain ⟨m, hra, hrecs⟩ := extract_structure h
    obtain ⟨_, hprops⟩ := resolveAll_spec hra List.nodup_nil (by simp) (by simp)
    rw [hrecs] at hrec
    obtain ⟨p, hp, hpr⟩ := List.mem_map.1 hrec
    have hpm : p ∈ m := (postFilter_sublist env m).mem hp
    obtain ⟨_, hla, hln⟩ := hprops p hpm
    exact ⟨hpr ▸ hla, hpr ▸ hln⟩

set_option maxRecDepth 2000 in
/-- C10 witness: the concrete CSV resolution carries both coordinates. -/
theorem claim_C10_witness : recHoGuom.lat.isSome ∧ recHoGuom.lng.isSome :=
  claim_C10_latlng_present.1 envCsv false "Ho Guom" none recHoGuom false []
    (by with_unfolding_all rfl)

end TourismChatbot
